import Mathlib

/-!
Verification of the `da-simulator` distributed-algorithm simulator.

This file gives a shallow embedding of the core of the repository — the
graph builder and engine (`src/simulator.rs`), the edge channel
(`src/types.rs`), and the three reference algorithms
(`src/algorithms/{isomorphic,bipartite,mvc_3approx}.rs`) — and proves or
refutes the specification claims about them.

Conventions of the embedding:
- an infinite lazy message iterator (Rust `Iterator<Item = M>`) is a
  function `Nat → M` giving the element at each index;
- Rust `HashSet<u32>` becomes `Finset Nat`;
- fallible operations (`expect`, `assert!`) become `Except String _`;
- `petgraph`'s adjacency iteration for undirected graphs reports a
  self-loop once (it is skipped in the reverse-direction chain), which
  the neighbor-listing definition below reflects.
-/

namespace DaSim

/-! ### `types.rs`: `Input` -/

/-- `Input` record handed to `init` (`types.rs`). -/
structure Input where
  node_id : Nat
  node_count : Nat
  node_degree : Nat
deriving DecidableEq

/-! ### `algorithms/isomorphic.rs`: Isomorphic Neighborhood at depth `D` -/

/-- Message of the Isomorphic Neighborhood algorithm. -/
inductive InMessage where
  | Number : Nat → InMessage
deriving DecidableEq

/-- State of the Isomorphic Neighborhood algorithm: `Count(rounds, sum)`. -/
inductive InState where
  | Count : Nat → Nat → InState
deriving DecidableEq

/-- `InState::is_output`: the target depth `D` has been reached. -/
def InState.is_output (D : Nat) : InState → Bool
  | .Count i _ => i == D

/-- `IsomorphicNeighborhood::<D>::init`: start at `Count(0, degree)`. -/
def inInit (info : Input) : InState := .Count 0 info.node_degree

/-- `IsomorphicNeighborhood::<D>::send`: `iter::repeat(Number(n))`,
as a function from the stream index. -/
def inSend : InState → Nat → InMessage
  | .Count _ n, _ => .Number n

/-- Payload of an `InMessage`. -/
def numVal : InMessage → Nat
  | .Number n => n

/-- `IsomorphicNeighborhood::<D>::receive`: absorb at depth `D`, otherwise
advance the round and sum all received numbers. -/
def inReceive (D : Nat) (s : InState) (msgs : List InMessage) : InState :=
  match s with
  | .Count i _ =>
    if s.is_output D then s
    else .Count (i + 1) (msgs.map numVal).sum

/-- One synchronous round on a `k`-regular graph where every vertex holds the
same state `s`: the engine pulls the first `k` elements of `send s` and the
vertex receives the `k` identical messages its neighbors sent. -/
def regularRound (D k : Nat) (s : InState) : InState :=
  inReceive D s ((List.range k).map (inSend s))

/-- Summing the `k` identical `Number(n)` messages a vertex of a `k`-regular
graph receives yields `k * n`. -/
lemma range_map_inSend_sum (k i n : Nat) :
    (((List.range k).map (inSend (.Count i n))).map numVal).sum = k * n := by
  have hfun : inSend (InState.Count i n) = fun _ => InMessage.Number n := by
    funext x; rfl
  rw [hfun, List.map_const']
  simp [List.sum_replicate, smul_eq_mul, numVal]

/-- After `j ≤ D` synchronous rounds on a `k`-regular graph every vertex, all
started at `inInit`, holds `Count(j, k^(j+1))`. -/
lemma regularRound_iterate (D k : Nat) :
    ∀ j, j ≤ D →
      Nat.iterate (regularRound D k) j (inInit ⟨0, 0, k⟩) = .Count j (k ^ (j + 1)) := by
  intro j
  induction j with
  | zero => intro _; simp [inInit, pow_one]
  | succ j ih =>
    intro hj
    have hjD : j ≤ D := Nat.le_of_succ_le hj
    have hjlt : j < D := hj
    rw [Function.iterate_succ_apply', ih hjD]
    simp only [regularRound, inReceive, inSend, InState.is_output]
    have : (j == D) = false := by
      simp [Nat.ne_of_lt hjlt]
    simp only [this, Bool.false_eq_true, if_false]
    congr 1
    rw [range_map_inSend_sum]
    ring

/-- C2: on a `k`-regular simple graph (`k ≥ 1`), `init` gives every vertex
`Count(0, k)`; one synchronous round takes `Count(i, n)` with `i < D` to
`Count(i+1, k·n)`; hence `D` rounds from `init` reach `Count(D, k^(D+1))`. -/
theorem isomorphic_regular_counts (D k : Nat) (_hk : 1 ≤ k) :
    inInit ⟨0, 0, k⟩ = .Count 0 k
    ∧ (∀ i n, i < D →
        inReceive D (.Count i n) ((List.range k).map (inSend (.Count i n)))
          = .Count (i + 1) (k * n))
    ∧ Nat.iterate (regularRound D k) D (inInit ⟨0, 0, k⟩) = .Count D (k ^ (D + 1)) := by
  refine ⟨rfl, ?_, regularRound_iterate D k D le_rfl⟩
  intro i n hi
  simp only [inReceive, inSend, InState.is_output]
  have : (i == D) = false := by simp [Nat.ne_of_lt hi]
  simp only [this, Bool.false_eq_true, if_false]
  congr 1
  exact range_map_inSend_sum k i n

/-- C2 witness: depth `5` on the `2`-regular 6-cycle reaches `Count(5, 64)`. -/
theorem isomorphic_regular_counts_witness :
    Nat.iterate (regularRound 5 2) 5 (inInit ⟨0, 0, 2⟩) = .Count 5 64 :=
  (isomorphic_regular_counts 5 2 (by decide)).2.2

/-! ### `algorithms/bipartite.rs`: Bipartite Maximal Matching -/

/-- Node color: even nodes are `White`, odd nodes are `Black`. -/
inductive NodeColor where
  | White
  | Black
deriving DecidableEq

/-- `impl From<u32> for NodeColor`. -/
def nodeColorOf (i : Nat) : NodeColor :=
  if i % 2 = 0 then .White else .Black

/-- The four matching states of the BMM negotiation. -/
inductive MatchingState where
  | Ur
  | Mr (p : Nat)
  | Us
  | Ms (p : Nat)
deriving DecidableEq

/-- `true` exactly on `Mr(_)`; used to express the send-rule guards. -/
def MatchingState.isMr : MatchingState → Bool
  | .Mr _ => true
  | _ => false

/-- Node state of the BMM algorithm (`BpState`). -/
structure BpState where
  degree : Nat
  color : NodeColor
  round : Nat
  matching_state : MatchingState
  m_set : Finset Nat
  x_set : Finset Nat
deriving DecidableEq

/-- `BpState::matched`: the node ended matched (`Ms(_)`). -/
def BpState.matched (s : BpState) : Bool :=
  match s.matching_state with
  | .Ms _ => true
  | _ => false

/-- `impl State for BpState`: `Us` and `Ms(_)` are stopping states. -/
def BpState.is_output (s : BpState) : Bool :=
  match s.matching_state with
  | .Us => true
  | .Ms _ => true
  | _ => false

/-- The equality the Rust `impl PartialEq for BpState` computes: it compares
only the `matching_state` fields. -/
def bpStateEq (a b : BpState) : Prop :=
  a.matching_state = b.matching_state

instance (a b : BpState) : Decidable (bpStateEq a b) := by
  unfold bpStateEq; infer_instance

/-- BMM wire messages. -/
inductive BpMessage where
  | Noop
  | Proposal
  | Accept
  | Matched
deriving DecidableEq

/-- `m_set.iter().min().unwrap()`: minimum of a `HashSet<u32>`, guarded by
non-emptiness at every use site. -/
def setMin (s : Finset Nat) : Nat :=
  s.min.untop' 0

/-- `BipartiteMaximalMatching::init`. -/
def bmmInit (info : Input) : BpState :=
  let degree := info.node_degree
  let color := nodeColorOf info.node_id
  let x_set : Finset Nat :=
    match color with
    | .White => ∅
    | .Black => Finset.range degree
  { degree := degree, color := color, round := 0, matching_state := .Ur,
    m_set := ∅, x_set := x_set }

/-- `BipartiteMaximalMatching::send`, as a function from the stream index.
The Rust `match` arms are grouped here by the `(color, matching_state)`
pattern (the patterns are pairwise disjoint, so the grouping preserves the
first-match semantics); the numeric guards are kept verbatim. -/
def bmmSend (s : BpState) : Nat → BpMessage :=
  match s.color, s.matching_state with
  | .White, .Ur =>
    if s.round % 2 = 0 ∧ s.round / 2 < s.degree then
      fun i => if i = s.round / 2 then .Proposal else .Noop
    else
      fun _ => .Noop
  | .White, .Mr _ =>
    if s.round % 2 = 0 then fun _ => .Matched else fun _ => .Noop
  | .Black, .Ur =>
    if s.round % 2 = 1 ∧ s.m_set ≠ ∅ then
      fun i => if i = setMin s.m_set then .Accept else .Noop
    else
      fun _ => .Noop
  | _, _ => fun _ => .Noop

/-- Port index of the first `Accept` among the received messages
(`acc_index` in `receive`). -/
def accIndex (msgs : List BpMessage) : Option Nat :=
  (msgs.enum.find? (fun p => decide (p.2 = .Accept))).map Prod.fst

/-- The Black-even update of `x_set` and `m_set`: for each port `i`, a
`Matched` message removes `i` from `x_set` and a `Proposal` adds it to
`m_set`. -/
def updateSets (msgs : List BpMessage) (xm : Finset Nat × Finset Nat) :
    Finset Nat × Finset Nat :=
  msgs.enum.foldl
    (fun acc p =>
      if p.2 = .Matched then (acc.1.erase p.1, acc.2)
      else if p.2 = .Proposal then (acc.1, insert p.1 acc.2)
      else acc)
    xm

/-- `BipartiteMaximalMatching::receive`. `result` starts as a copy of the
input state with `round` incremented; the `match` arms (grouped by the
disjoint `(color, matching_state)` patterns, guards verbatim and in source
order) then adjust it. -/
def bmmReceive (s : BpState) (msgs : List BpMessage) : BpState :=
  let result := { s with round := s.round + 1 }
  let acc := accIndex msgs
  match s.color, s.matching_state with
  | .White, .Ur =>
    if s.round % 2 = 0 ∧ s.round / 2 + 1 > s.degree then
      { result with matching_state := .Us }
    else if s.round % 2 = 1 ∧ acc.isSome then
      { result with matching_state := .Mr (acc.getD 0) }
    else
      result
  | .White, .Mr i =>
    if s.round % 2 = 0 then { result with matching_state := .Ms i } else result
  | .Black, .Ur =>
    if s.round % 2 = 1 ∧ s.m_set ≠ ∅ then
      { result with matching_state := .Ms (setMin s.m_set) }
    else if s.round % 2 = 1 ∧ s.x_set = ∅ then
      { result with matching_state := .Us }
    else if s.round % 2 = 0 then
      { result with
        x_set := (updateSets msgs (s.x_set, s.m_set)).1,
        m_set := (updateSets msgs (s.x_set, s.m_set)).2 }
    else
      result
  | _, _ => result

/-- C8: `receive` increments `round` by exactly one in every branch,
including the default one. -/
theorem bmm_receive_increments_round (s : BpState) (msgs : List BpMessage) :
    (bmmReceive s msgs).round = s.round + 1 := by
  obtain ⟨d, c, r, ms, m, x⟩ := s
  cases c <;> cases ms <;> simp only [bmmReceive] <;> split_ifs <;> rfl

/-- C3: on any state whose `matching_state` is `US` or `MS(_)` (a stopping
state), `receive` returns a state `PartialEq`-equal to the input, for every
received message vector: BMM stopping states are absorbing. -/
theorem bmm_stopping_absorbing (s : BpState) (msgs : List BpMessage)
    (h : s.is_output = true) :
    bpStateEq (bmmReceive s msgs) s := by
  obtain ⟨d, c, r, ms, m, x⟩ := s
  cases c <;> cases ms <;>
    (try (simp [BpState.is_output] at h)) <;>
    simp only [bmmReceive, bpStateEq] <;>
    split_ifs <;> rfl

/-- C3 witness: a matched-stopped White node is absorbing under a concrete
message vector. -/
theorem bmm_stopping_absorbing_witness :
    bpStateEq
      (bmmReceive ⟨2, .White, 4, .Ms 1, ∅, ∅⟩ [.Noop, .Accept])
      ⟨2, .White, 4, .Ms 1, ∅, ∅⟩ :=
  bmm_stopping_absorbing ⟨2, .White, 4, .Ms 1, ∅, ∅⟩ [.Noop, .Accept] (by decide)

/-- Disjunction of the three guarded send rules of
`BipartiteMaximalMatching::send`; a state matching none of them takes the
default arm. -/
def sendRuleMatches (s : BpState) : Prop :=
  (s.color = .White ∧ s.round % 2 = 0 ∧ s.matching_state = .Ur
      ∧ s.round / 2 < s.degree)
  ∨ (s.color = .White ∧ s.round % 2 = 0 ∧ s.matching_state.isMr = true)
  ∨ (s.color = .Black ∧ s.round % 2 = 1 ∧ s.matching_state = .Ur
      ∧ s.m_set ≠ ∅)

instance (s : BpState) : Decidable (sendRuleMatches s) := by
  unfold sendRuleMatches; infer_instance

/-- C5: a White unmatched-running node on an even round with
`round/2 < degree` proposes exactly on port `round/2` and sends `Noop` on
every other port among the first `degree` stream elements; a state matching
no send rule sends `Noop` on every port. -/
theorem bmm_send_rules (s : BpState) (i : Nat) :
    (s.color = .White → s.round % 2 = 0 → s.matching_state = .Ur →
      s.round / 2 < s.degree → i < s.degree →
      bmmSend s i = if i = s.round / 2 then .Proposal else .Noop)
    ∧ (¬ sendRuleMatches s → bmmSend s i = .Noop) := by
  constructor
  · intro hc hr hm hd _
    obtain ⟨d, c, r, ms, m, x⟩ := s
    simp only at hc hr hm hd
    subst hc; subst hm
    simp [bmmSend, hr, hd]
  · intro hno
    obtain ⟨d, c, r, ms, m, x⟩ := s
    unfold sendRuleMatches at hno
    push_neg at hno
    cases c <;> cases ms <;> simp_all [bmmSend, MatchingState.isMr] <;>
      split_ifs <;> simp_all <;> omega

/-- C5 witness: at a White `UR` node with degree 2 on round 0 the first
stream element is a `Proposal`, and a Black `UR` node on round 0 (matching
no send rule) sends `Noop`. -/
theorem bmm_send_rules_witness :
    bmmSend ⟨2, .White, 0, .Ur, ∅, ∅⟩ 0 = .Proposal
    ∧ bmmSend ⟨2, .Black, 0, .Ur, ∅, Finset.range 2⟩ 1 = .Noop := by
  constructor
  · have h := (bmm_send_rules ⟨2, .White, 0, .Ur, ∅, ∅⟩ 0).1
      rfl rfl rfl (by decide) (by decide)
    simpa using h
  · exact (bmm_send_rules ⟨2, .Black, 0, .Ur, ∅, Finset.range 2⟩ 1).2 (by decide)

/-- C10: `PartialEq` on `BpState` holds iff the `matching_state` fields
agree; the `round`, `degree`, `color`, `m_set` and `x_set` fields never
influence it, so two states differing arbitrarily in those fields compare
equal whenever their `matching_state`s coincide. -/
theorem bp_state_eq_matching_only (s t : BpState) (d r : Nat) (c : NodeColor)
    (m x : Finset Nat) :
    (bpStateEq s t ↔ s.matching_state = t.matching_state)
    ∧ bpStateEq ⟨d, c, r, s.matching_state, m, x⟩ s := by
  exact ⟨Iff.rfl, rfl⟩

/-! ### `algorithms/mvc_3approx.rs`: MVC 3-approximation -/

/-- MVC 3-approx. state: the pair of virtual BMM node states. -/
structure Mvc3approxState where
  s1 : BpState
  s2 : BpState
deriving DecidableEq

/-- MVC 3-approx. message: the pair of virtual BMM edge messages. -/
structure Mvc3approxMessage where
  m1 : BpMessage
  m2 : BpMessage
deriving DecidableEq

/-- `Mvc3approx::init`: `s1` is initialized with `node_id = 0` (White) and
`s2` with `node_id = 1` (Black); the other `Input` fields are forwarded. -/
def mvcInit (info : Input) : Mvc3approxState :=
  { s1 := bmmInit { info with node_id := 0 },
    s2 := bmmInit { info with node_id := 1 } }

/-- `Mvc3approx::send`: `send(s1).zip(send(s2)).map(|(m2, m1)| {m1, m2})` —
the element of `s1`'s stream is bound to the `m2` field and the element of
`s2`'s stream to the `m1` field (the wire swap). -/
def mvcSend (s : Mvc3approxState) : Nat → Mvc3approxMessage :=
  fun i =>
    match bmmSend s.s1 i, bmmSend s.s2 i with
    | m2, m1 => { m1 := m1, m2 := m2 }

/-- `Mvc3approx::receive`: unzip the pair-messages into the two port-ordered
streams and run the BMM `receive` on each virtual state. -/
def mvcReceive (s : Mvc3approxState) (msgs : List Mvc3approxMessage) :
    Mvc3approxState :=
  let p := (msgs.map (fun m => (m.m1, m.m2))).unzip
  { s1 := bmmReceive s.s1 p.1, s2 := bmmReceive s.s2 p.2 }

/-- `impl State for Mvc3approxState`: both virtual instances must stop. -/
def Mvc3approxState.is_output (s : Mvc3approxState) : Bool :=
  s.s1.is_output && s.s2.is_output

/-- C4: the `i`-th packed message has its `m1` field drawn from `s2`'s BMM
send stream and its `m2` field from `s1`'s; `receive` feeds the `m1`
components to `s1`'s BMM receive and the `m2` components to `s2`'s; hence
when a vertex receives the stream its peer sent, its `s1` consumes exactly
what the peer's `s2` produced and vice-versa. -/
theorem mvc_wire_swap (s t : Mvc3approxState) (i d : Nat)
    (msgs : List Mvc3approxMessage) :
    (mvcSend s i).m1 = bmmSend s.s2 i
    ∧ (mvcSend s i).m2 = bmmSend s.s1 i
    ∧ mvcReceive s msgs
        = { s1 := bmmReceive s.s1 (msgs.map Mvc3approxMessage.m1),
            s2 := bmmReceive s.s2 (msgs.map Mvc3approxMessage.m2) }
    ∧ (mvcReceive s ((List.range d).map (mvcSend t))).s1
        = bmmReceive s.s1 ((List.range d).map (bmmSend t.s2))
    ∧ (mvcReceive s ((List.range d).map (mvcSend t))).s2
        = bmmReceive s.s2 ((List.range d).map (bmmSend t.s1)) := by
  have hunzip : ∀ ms : List Mvc3approxMessage,
      (ms.map (fun m => (m.m1, m.m2))).unzip
        = (ms.map Mvc3approxMessage.m1, ms.map Mvc3approxMessage.m2) := by
    intro ms
    induction ms with
    | nil => rfl
    | cons a l ih => simp [List.unzip_cons, ih]
  refine ⟨rfl, rfl, ?_, ?_, ?_⟩
  · simp [mvcReceive, hunzip]
  · have hl : ((List.range d).map (mvcSend t)).map Mvc3approxMessage.m1
        = (List.range d).map (bmmSend t.s2) := by
      rw [List.map_map]
      exact List.map_congr_left (fun j _ => rfl)
    simp only [mvcReceive, hunzip]
    rw [hl]
  · have hl : ((List.range d).map (mvcSend t)).map Mvc3approxMessage.m2
        = (List.range d).map (bmmSend t.s1) := by
      rw [List.map_map]
      exact List.map_congr_left (fun j _ => rfl)
    simp only [mvcReceive, hunzip]
    rw [hl]

/-! ### `types.rs`: `Edge::endpoint` -/

/-- The mutable state of an `Edge`'s channel cell: the optionally stored
`(Sender, Receiver)` half, the `connected` flag, and a counter allocating
identities for the capacity-1 buffers created by `bounded(1)`. An endpoint
`(sb, rb)` sends into buffer `sb` and receives from buffer `rb`. -/
structure EdgeChan where
  channel : Option (Nat × Nat)
  connected : Bool
  fresh : Nat
deriving DecidableEq

/-- A fresh `Edge` (`Default`): nothing stored, not connected. -/
def initEdge : EdgeChan := ⟨none, false, 0⟩

/-- `Edge::endpoint`: if a half is stored, assert `!connected` (the fatal
"attempt to acquire third endpoint for edge") and hand it out; otherwise
create two fresh capacity-1 buffers `b1`, `b2`, store `(send b1, recv b2)`
and return `(send b2, recv b1)`. -/
def endpoint (e : EdgeChan) : Except String ((Nat × Nat) × EdgeChan) :=
  match e.channel with
  | some sr =>
    if e.connected then .error "attempt to acquire third endpoint for edge"
    else .ok (sr, { e with channel := none, connected := true })
  | none =>
    let b1 := e.fresh
    let b2 := e.fresh + 1
    .ok ((b2, b1), { e with channel := some (b1, b2), fresh := e.fresh + 2 })

/-- C7 (refuting the third-call clause): the first two `endpoint` calls
return mirrored pairs whose senders cross to the other pair's receiver, but
the **third** call succeeds with a freshly created, unconnected pair — only
the **fourth** call trips the "third endpoint" assertion. -/
theorem edge_endpoint_third_call :
    endpoint initEdge = .ok ((1, 0), ⟨some (0, 1), false, 2⟩)
    ∧ endpoint ⟨some (0, 1), false, 2⟩ = .ok ((0, 1), ⟨none, true, 2⟩)
    ∧ (1, 0).1 = (0, 1).2 ∧ (1, 0).2 = (0, 1).1
    ∧ endpoint ⟨none, true, 2⟩ = .ok ((3, 2), ⟨some (2, 3), true, 4⟩)
    ∧ endpoint ⟨some (2, 3), true, 4⟩
        = .error "attempt to acquire third endpoint for edge" := by
  refine ⟨rfl, rfl, rfl, rfl, rfl, rfl⟩

/-! ### `simulator.rs`: `from_network` (graph builder) -/

/-- `1 + edges.iter().map(max).max()`: `none` on the empty list (the
`expect("no edges given")` panic site), otherwise one plus the largest
endpoint of any pair. -/
def nodeCountOf : List (Nat × Nat) → Option Nat
  | [] => none
  | es => some (1 + (es.map (fun e => max e.1 e.2)).foldr max 0)

/-- `node_degrees`: each vertex counts its occurrences among all pair
endpoints. -/
def degreeOf (edges : List (Nat × Nat)) (v : Nat) : Nat :=
  ((edges.flatMap (fun e => [e.1, e.2])).filter (fun i => i = v)).length

/-- Edge normalization before insertion: swap so that `source ≤ target`
(`petgraph` port stability workaround). -/
def normEdges (edges : List (Nat × Nat)) : List (Nat × Nat) :=
  edges.map (fun e => if e.1 > e.2 then (e.2, e.1) else e)

/-- The neighbor targets `graph.edges(v).map(|e| e.target())` reported by
`petgraph` for vertex `v`: every incident edge contributes its other
endpoint, and a self-loop is reported **once** (`petgraph` skips self-loops
in the reverse-direction chain of an undirected adjacency walk). -/
def neighborTargets (edges : List (Nat × Nat)) (v : Nat) : List Nat :=
  (normEdges edges).filterMap
    (fun e => if e.1 = v then some e.2 else if e.2 = v then some e.1 else none)

/-- `from_network` up to its fatal assertions: derive the node count
(failing on an empty list), normalize the edges, and verify that every
vertex's reported neighbor targets are pairwise distinct ("graph must be
simple"). -/
def from_network (edges : List (Nat × Nat)) :
    Except String (Nat × List (Nat × Nat)) :=
  match nodeCountOf edges with
  | none => .error "no edges given"
  | some n =>
    if (List.range n).all (fun v => decide (neighborTargets edges v).Nodup) then
      .ok (n, normEdges edges)
    else
      .error "graph must be simple"

/-- C1 (code bug): a duplicate pair is rejected as required, but the edge
list `[(0, 0)]` consisting of a single self-loop **passes** the simplicity
assertion — vertex 0's reported neighbor-target list is `[0]`, which has no
duplicates because `petgraph` reports an undirected self-loop once — so
`from_network` succeeds and the simulation would start. -/
theorem from_network_selfloop_accepted :
    from_network [(0, 0)] = .ok (1, [(0, 0)])
    ∧ from_network [(0, 0), (0, 1)] = .ok (2, [(0, 0), (0, 1)])
    ∧ from_network [(0, 1), (0, 1)] = .error "graph must be simple"
    ∧ from_network [(0, 1), (1, 0)] = .error "graph must be simple" := by
  refine ⟨rfl, rfl, rfl, rfl⟩

/-- Largest endpoint occurring in a list of pairs, flattened. -/
def maxIndexOf (edges : List (Nat × Nat)) : Nat :=
  (edges.flatMap (fun e => [e.1, e.2])).foldr max 0

/-- Folding `max` over the per-pair maxima equals folding it over the
flattened endpoint list. -/
lemma foldr_max_pairs (edges : List (Nat × Nat)) :
    (edges.map (fun e => max e.1 e.2)).foldr max 0 = maxIndexOf edges := by
  induction edges with
  | nil => rfl
  | cons a l ih =>
    simp only [maxIndexOf, List.map_cons, List.foldr_cons, List.flatMap_cons,
      List.foldr_append, List.foldr_cons, List.foldr_nil] at *
    rw [ih]
    simp [maxIndexOf, Nat.max_assoc]

/-- C9: on the empty edge list `from_network` fails with "no edges given"
before anything is built; on any non-empty list the derived node count is
`1 +` the maximum vertex index occurring in the list. -/
theorem from_network_empty_and_node_count (e : Nat × Nat)
    (es : List (Nat × Nat)) :
    from_network [] = .error "no edges given"
    ∧ nodeCountOf (e :: es) = some (1 + maxIndexOf (e :: es)) := by
  refine ⟨rfl, ?_⟩
  rw [show nodeCountOf (e :: es)
        = some (1 + ((e :: es).map (fun p => max p.1 p.2)).foldr max 0) from rfl,
    foldr_max_pairs]

/-! ### `simulator.rs`: the per-round port accounting of `run`

`DaSimulator::edges(v)` reverses `petgraph`'s adjacency walk, which lists
(post-normalization) the edges with `v` as source in reverse insertion
order and then those with `v` as target in reverse insertion order; after
the reversal the ports of `v` are the target-side incident edges in
insertion order followed by the source-side ones in insertion order. In
each round the worker of `v` zips its senders (one per port) with the send
stream — consuming exactly one stream element per port — and collects one
message per receiver in port order before calling `receive`. -/

/-- The incident edges of `v` in port order (see above). -/
def portEdges (edges : List (Nat × Nat)) (v : Nat) : List (Nat × Nat) :=
  (normEdges edges).filter (fun e => decide (e.2 = v) && decide (e.1 ≠ v))
    ++ (normEdges edges).filter (fun e => decide (e.1 = v))

/-- The prefix of the send stream the engine consumes for vertex `v`:
`senders.iter().zip(A::send(state))` pulls one element per sender. -/
def sendConsumed {S M : Type} (send : S → Nat → M) (edges : List (Nat × Nat))
    (states : Nat → S) (v : Nat) : List M :=
  (List.range (portEdges edges v).length).map (send (states v))

/-- The messages vertex `v` collects in its receive phase, in port order:
for each incident edge, the message its neighbor `u` emitted on `u`'s port
for that edge. -/
def receivedMsgs {S M : Type} [BEq (Nat × Nat)] (send : S → Nat → M)
    (edges : List (Nat × Nat)) (states : Nat → S) (v : Nat) : List M :=
  (portEdges edges v).map (fun e =>
    let u := if e.1 = v then e.2 else e.1
    send (states u) ((portEdges edges u).indexOf e))

/-- One state transition of the worker of `v`:
`*state = A::receive(&state, m.into_iter())` on the collected messages. -/
def engineStep {S M : Type} [BEq (Nat × Nat)] (send : S → Nat → M)
    (receive : S → List M → S) (edges : List (Nat × Nat)) (states : Nat → S)
    (v : Nat) : S :=
  receive (states v) (receivedMsgs send edges states v)

/-- On a self-loop-free edge list the number of ports of `v` equals the
degree `node_degrees` computes for `v` (occurrences among all endpoints). -/
lemma portEdges_length (v : Nat) :
    ∀ edges : List (Nat × Nat), (∀ e ∈ edges, e.1 ≠ e.2) →
      (portEdges edges v).length = degreeOf edges v := by
  intro edges
  induction edges with
  | nil => intro _; rfl
  | cons a l ih =>
    intro h
    have ha : a.1 ≠ a.2 := h a (List.mem_cons_self a l)
    have hl := ih (fun e he => h e (List.mem_cons_of_mem a he))
    simp only [portEdges, normEdges, List.map_cons, List.filter_cons,
      List.length_append, degreeOf, List.flatMap_cons, List.cons_append,
      List.filter_append] at *
    by_cases h12 : a.1 > a.2 <;>
      simp only [h12, if_true, if_false, reduceIte] <;>
      by_cases h1 : a.1 = v <;> by_cases h2 : a.2 = v <;>
      simp_all <;> omega

/-- C6: in every round, the worker of `v` consumes exactly `deg(v)` elements
of the send stream (one per sender, in port order) and hands `receive`
exactly the `deg(v)` messages collected from its receivers in port order. -/
theorem engine_round_port_count {S M : Type} (send : S → Nat → M)
    (receive : S → List M → S) (edges : List (Nat × Nat)) (states : Nat → S)
    (v : Nat) (h : ∀ e ∈ edges, e.1 ≠ e.2) :
    (sendConsumed send edges states v).length = degreeOf edges v
    ∧ (receivedMsgs send edges states v).length = degreeOf edges v
    ∧ engineStep send receive edges states v
        = receive (states v) (receivedMsgs send edges states v) := by
  refine ⟨?_, ?_, rfl⟩ <;>
    simp [sendConsumed, receivedMsgs, portEdges_length v edges h]

/-- C6 witness: on the path `0 — 1 — 2`, vertex 1 consumes two send-stream
elements and receives two messages per round. -/
theorem engine_round_port_count_witness :
    (sendConsumed (fun (s : Nat) (_ : Nat) => s) [(0, 1), (1, 2)]
        (fun i => i) 1).length = 2
    ∧ (receivedMsgs (fun (s : Nat) (_ : Nat) => s) [(0, 1), (1, 2)]
        (fun i => i) 1).length = 2 := by
  have h := engine_round_port_count (fun (s : Nat) (_ : Nat) => s)
    (fun s _ => s) [(0, 1), (1, 2)] (fun i => i) 1 (by decide)
  exact ⟨h.1.trans rfl, h.2.1.trans rfl⟩

end DaSim
